import Mathlib

/-!
Verification of the in-memory cache engine of `src/dataset/cache/cache_service.py`
(class `CacheSystem`, the module-level `stats` dictionary, and the statistics
portion of the `process_query` handler).

Modelling conventions, stated once:

* Python strings are Lean `String`s; where character-level reasoning is needed
  (`str.strip`, `str.lower`) we work on the underlying `List Char`.
  Python's `str.lower`/`str.upper` agree with `Char.toLower`/`Char.toUpper`
  on the ASCII inputs the service handles.
* `time.time()` is modelled by an explicit `now : Nat` argument passed to every
  operation that reads the clock; real timestamps are non-decreasing.
* A Python `dict` preserves insertion order, so `self.cache` is an
  insertion-ordered association list `List (String × CacheEntry)`; dict keys
  are unique, so deleting a key (our `eraseKey`, which drops every binding of
  that key) coincides with Python's `del` (which drops the single binding).
  `self.access_order` is an `OrderedDict` used as an ordered key set, modelled
  as `List String`; `move_to_end` is remove-then-append.
* `hashlib.md5(x).hexdigest()` is a deterministic fingerprint whose collisions
  the specification treats as negligible; the model therefore identifies the
  fingerprint with the normalized string fed to the hash, so fingerprint
  equality is equality of normalized inputs.  A real md5 hexdigest is a
  nonempty string of 32 hex characters; theorems about eviction carry the
  corresponding `key ≠ ""` hypotheses because Python's `if key_to_remove:`
  truthiness test skips deletion for an empty-string key.
* `del d[k]` on a missing key and `next(iter(od))` on an empty `OrderedDict`
  raise in Python; the model makes them total no-ops.  All theorems are stated
  on reachable states where these branches are never exercised.
-/

/-- The characters Python's `str.strip()` removes (ASCII whitespace). -/
def pyIsSpace (ch : Char) : Bool :=
  ch = ' ' || ch = '\t' || ch = '\n' || ch = '\r' || ch = '\x0B' || ch = '\x0C'

/-- Python `str.strip()`: drop leading and trailing whitespace. -/
def pyStrip (l : List Char) : List Char :=
  ((l.dropWhile pyIsSpace).reverse.dropWhile pyIsSpace).reverse

/-- Python `str.lower()` (ASCII case mapping, as used by the service). -/
def pyLower (l : List Char) : List Char := l.map Char.toLower

/-- Python `str.upper()` on a whole string, used by `CacheSystem.__init__`. -/
def pyUpper (s : String) : String := ⟨s.data.map Char.toUpper⟩

/-- `CacheEntry.__init__`: a cached answer plus access metadata
(`cache_service.py` lines 34-42). -/
structure CacheEntry where
  key : String
  value : String
  original_answer : String
  timestamp : Nat
  access_count : Nat
  last_access : Nat
deriving DecidableEq

/-- The dictionary returned by a successful `CacheSystem.get`
(`cache_service.py` lines 115-120). -/
structure GetResult where
  llm_answer : String
  original_answer : String
  access_count : Nat
  cached_at : Nat
deriving DecidableEq

/-- The module-level `stats` dictionary (`cache_service.py` lines 26-31). -/
structure Stats where
  hits : Nat
  misses : Nat
  total_queries : Nat
  evictions : Nat
deriving DecidableEq

/-- The zeroed counters the process starts with. -/
def Stats.zero : Stats := ⟨0, 0, 0, 0⟩

/-- The state of `class CacheSystem` (`cache_service.py` lines 45-53). -/
structure CacheSystem where
  max_size : Nat
  policy : String
  ttl : Nat
  cache : List (String × CacheEntry)
  access_order : List String
deriving DecidableEq

/-- `CacheSystem.__init__(max_size, policy, ttl)`: stores the configuration,
upper-casing the policy string, and starts with empty containers.  The code
performs no validation of `policy` and cannot fail. -/
def CacheSystem.init (max_size : Nat) (policy : String) (ttl : Nat) : CacheSystem :=
  { max_size := max_size, policy := pyUpper policy, ttl := ttl,
    cache := [], access_order := [] }

/-- `CacheSystem._generate_key`: `f"{title}|{content}".strip().lower()` fed to
md5.  Per the conventions above the md5 hexdigest is identified with the
normalized string. -/
def CacheSystem._generate_key (title content : String) : String :=
  ⟨pyLower (pyStrip (title.data ++ '|' :: content.data))⟩

/-- Dictionary lookup `self.cache[key]` / `key in self.cache`. -/
def lookupKey (key : String) : List (String × CacheEntry) → Option CacheEntry
  | [] => none
  | p :: ps => if p.1 = key then some p.2 else lookupKey key ps

/-- `del self.cache[key]` (keys are unique in a dict, so dropping every
binding of `key` coincides with dropping the single one). -/
def eraseKey (key : String) : List (String × CacheEntry) → List (String × CacheEntry)
  | [] => []
  | p :: ps => if p.1 = key then eraseKey key ps else p :: eraseKey key ps

/-- `del self.access_order[key]` on the ordered key set. -/
def removeAll (key : String) : List String → List String
  | [] => []
  | x :: xs => if x = key then removeAll key xs else x :: removeAll key xs

/-- The metadata update shared by `get` (lines 108-109) and duplicate `put`
(lines 129-130): bump `access_count`, refresh `last_access`. -/
def touchEntry (now : Nat) (e : CacheEntry) : CacheEntry :=
  { e with access_count := e.access_count + 1, last_access := now }

/-- In-place mutation of the entry stored under `key` (first binding). -/
def updateEntry (key : String) (now : Nat) :
    List (String × CacheEntry) → List (String × CacheEntry)
  | [] => []
  | p :: ps => if p.1 = key then (p.1, touchEntry now p.2) :: ps
               else p :: updateEntry key now ps

/-- `min(self.cache.items(), key=lambda x: x[1].access_count)`: Python's `min`
keeps the current best unless a strictly smaller key appears, so ties go to
the earliest item. -/
def minByAccess (x : String × CacheEntry) (l : List (String × CacheEntry)) :
    String × CacheEntry :=
  l.foldl (fun best y => if y.2.access_count < best.2.access_count then y else best) x

/-- `CacheSystem._is_expired` (lines 60-62): `(time.time() - entry.timestamp) > self.ttl`. -/
def CacheSystem._is_expired (s : CacheSystem) (now : Nat) (e : CacheEntry) : Bool :=
  now - e.timestamp > s.ttl

/-- The victim `key_to_remove` selected by `CacheSystem._evict` (lines 64-82):
`None` on an empty cache; front of `access_order` for LRU and FIFO; first
minimum `access_count` for LFU; `None` for any other policy string. -/
def CacheSystem.evictVictim (s : CacheSystem) : Option String :=
  match s.cache with
  | [] => none
  | x :: xs =>
    if s.policy = "LRU" then s.access_order.head?
    else if s.policy = "LFU" then some (minByAccess x xs).1
    else if s.policy = "FIFO" then s.access_order.head?
    else none

/-- `CacheSystem._evict` (lines 64-89): remove the victim from both containers
and count the eviction.  Python's `if key_to_remove:` is falsy for `None` and
for the empty string, in which case nothing is removed or counted. -/
def CacheSystem._evict (s : CacheSystem) (st : Stats) : CacheSystem × Stats :=
  match s.evictVictim with
  | none => (s, st)
  | some k =>
    if k = "" then (s, st)
    else ({ s with cache := eraseKey k s.cache,
                   access_order := removeAll k s.access_order },
          { st with evictions := st.evictions + 1 })

/-- `CacheSystem.get` (lines 91-120), taking the already-derived fingerprint
(`get(title, content)` is this function applied to
`_generate_key title content`).  Returns the updated state and the hit
payload, `none` on absence or expiry; an expired entry is deleted from both
containers as a side effect of the read. -/
def CacheSystem.get (s : CacheSystem) (now : Nat) (key : String) :
    CacheSystem × Option GetResult :=
  match lookupKey key s.cache with
  | none => (s, none)
  | some entry =>
    if s._is_expired now entry then
      ({ s with cache := eraseKey key s.cache,
                access_order := removeAll key s.access_order }, none)
    else
      let s1 := { s with cache := updateEntry key now s.cache }
      let s2 := if s1.policy = "LRU"
                then { s1 with access_order := removeAll key s1.access_order ++ [key] }
                else s1
      (s2, some { llm_answer := entry.value, original_answer := entry.original_answer,
                  access_count := entry.access_count + 1, cached_at := entry.timestamp })

/-- `CacheSystem.put` (lines 122-140), taking the already-derived fingerprint.
A duplicate key only refreshes metadata and returns; a new key first evicts
when `len(self.cache) >= self.max_size`, then appends to both containers. -/
def CacheSystem.put (s : CacheSystem) (st : Stats) (now : Nat)
    (key llm_answer original_answer : String) : CacheSystem × Stats :=
  match lookupKey key s.cache with
  | some _ => ({ s with cache := updateEntry key now s.cache }, st)
  | none =>
    let p := if s.cache.length ≥ s.max_size then s._evict st else (s, st)
    let entry : CacheEntry :=
      { key := key, value := llm_answer, original_answer := original_answer,
        timestamp := now, access_count := 1, last_access := now }
    ({ p.1 with cache := p.1.cache ++ [(key, entry)],
                access_order := p.1.access_order ++ [key] }, p.2)

/-- `CacheSystem.size` (lines 142-144). -/
def CacheSystem.size (s : CacheSystem) : Nat := s.cache.length

/-- `CacheSystem.clear` (lines 146-149). -/
def CacheSystem.clear (s : CacheSystem) : CacheSystem :=
  { s with cache := [], access_order := [] }

/-- The statistics-relevant skeleton of the `/query` handler `process_query`
(lines 248-343): `total_queries` is incremented first; a hit increments
`hits`; otherwise `misses` is incremented before the query is validated and
the LLM and score services are called, so every later exception (modelled by
`ext = none`) leaves the counters with the miss already recorded; on external
success the answer is `put` into the cache. -/
def process_query (s : CacheSystem) (st : Stats) (now : Nat) (key : String)
    (ext : Option (String × String)) : CacheSystem × Stats :=
  let st1 : Stats := { st with total_queries := st.total_queries + 1 }
  let r := s.get now key
  match r.2 with
  | some _ => (r.1, { st1 with hits := st1.hits + 1 })
  | none =>
    let st2 : Stats := { st1 with misses := st1.misses + 1 }
    match ext with
    | none => (r.1, st2)
    | some pr => r.1.put st2 now key pr.1 pr.2

/-- A public cache operation, for stating trace invariants: a `put` with its
clock reading, fingerprint and payload, or a `get` with its clock reading and
fingerprint. -/
inductive CacheOp where
  | putOp : Nat → String → String → String → CacheOp
  | getOp : Nat → String → CacheOp
deriving DecidableEq

/-- Run a sequence of public operations against the cache
(statistics threaded through `put` for the eviction counter). -/
def CacheSystem.run (s : CacheSystem) (st : Stats) : List CacheOp → CacheSystem × Stats
  | [] => (s, st)
  | CacheOp.putOp now k v o :: ops =>
    let p := s.put st now k v o
    p.1.run p.2 ops
  | CacheOp.getOp now k :: ops =>
    let p := s.get now k
    p.1.run st ops

/-- The fingerprint of a `putOp` is nonempty (true of every md5 hexdigest);
`getOp` is unconstrained. -/
def CacheOp.keyOk : CacheOp → Prop
  | CacheOp.putOp _ k _ _ => k ≠ ""
  | CacheOp.getOp _ _ => True

/-- The closed set of policies `_evict` recognizes. -/
def validPolicy (p : String) : Prop :=
  p = "LRU" ∨ p = "LFU" ∨ p = "FIFO"

instance : DecidablePred validPolicy := fun p => by
  unfold validPolicy; infer_instance

instance (op : CacheOp) : Decidable op.keyOk := by
  cases op <;> simp [CacheOp.keyOk] <;> infer_instance

/-- A runner for the statistics skeleton: process a list of queries, each
given by its clock reading, derived fingerprint, and the outcome of the
external LLM and score calls. -/
def runQueries (s : CacheSystem) (st : Stats) :
    List (Nat × String × Option (String × String)) → CacheSystem × Stats
  | [] => (s, st)
  | e :: es =>
    let p := process_query s st e.1 e.2.1 e.2.2
    runQueries p.1 p.2 es

/-- The two containers hold the same key set. -/
def KeysSync (s : CacheSystem) : Prop :=
  ∀ k, k ∈ s.access_order ↔ k ∈ s.cache.map Prod.fst

/-- Every stored fingerprint is nonempty (true of every md5 hexdigest). -/
def KeysNonempty (s : CacheSystem) : Prop :=
  ∀ k ∈ s.cache.map Prod.fst, k ≠ ""

/-- The state invariant: synchronized containers, nonempty fingerprints,
entry count within capacity. -/
def CacheInv (s : CacheSystem) : Prop :=
  KeysSync s ∧ KeysNonempty s ∧ s.cache.length ≤ s.max_size

/-! ### Character-level facts about the normalization in `_generate_key` -/

lemma charToNat_ofNat {n : Nat} (h : n.isValidChar) : (Char.ofNat n).toNat = n := by
  unfold Char.ofNat
  rw [dif_pos h]
  rfl

lemma char_eq_iff_toNat (c d : Char) : c = d ↔ c.toNat = d.toNat := by
  constructor
  · intro h; rw [h]
  · intro h
    have h2 := congrArg Char.ofNat h
    rwa [Char.ofNat_toNat, Char.ofNat_toNat] at h2

lemma pyIsSpace_iff (c : Char) : pyIsSpace c = true ↔
    (c.toNat = 32 ∨ c.toNat = 9 ∨ c.toNat = 10 ∨ c.toNat = 13 ∨ c.toNat = 11 ∨ c.toNat = 12) := by
  simp only [pyIsSpace, Bool.or_eq_true, decide_eq_true_eq]
  rw [char_eq_iff_toNat, char_eq_iff_toNat, char_eq_iff_toNat, char_eq_iff_toNat,
      char_eq_iff_toNat, char_eq_iff_toNat]
  have e1 : (' ').toNat = 32 := rfl
  have e2 : ('\t').toNat = 9 := rfl
  have e3 : ('\n').toNat = 10 := rfl
  have e4 : ('\r').toNat = 13 := rfl
  have e5 : ('\x0B').toNat = 11 := rfl
  have e6 : ('\x0C').toNat = 12 := rfl
  rw [e1, e2, e3, e4, e5, e6]
  tauto

lemma toLower_eq (c : Char) :
    Char.toLower c = if c.toNat ≥ 65 ∧ c.toNat ≤ 90 then Char.ofNat (c.toNat + 32) else c := rfl

lemma pyIsSpace_toLower (c : Char) : pyIsSpace c.toLower = pyIsSpace c := by
  rw [toLower_eq]
  by_cases h : c.toNat ≥ 65 ∧ c.toNat ≤ 90
  · rw [if_pos h]
    have hv : (c.toNat + 32).isValidChar := by
      apply Or.inl
      omega
    have ht : (Char.ofNat (c.toNat + 32)).toNat = c.toNat + 32 := charToNat_ofNat hv
    have h1 : pyIsSpace (Char.ofNat (c.toNat + 32)) = false := by
      rw [← Bool.not_eq_true, pyIsSpace_iff, ht]; omega
    have h2 : pyIsSpace c = false := by
      rw [← Bool.not_eq_true, pyIsSpace_iff]; omega
    rw [h1, h2]
  · rw [if_neg h]

lemma toLower_toLower (c : Char) : c.toLower.toLower = c.toLower := by
  rw [toLower_eq c]
  by_cases h : c.toNat ≥ 65 ∧ c.toNat ≤ 90
  · rw [if_pos h, toLower_eq]
    have hv : (c.toNat + 32).isValidChar := by apply Or.inl; omega
    rw [charToNat_ofNat hv, if_neg (by omega)]
  · rw [if_neg h, toLower_eq, if_neg h]

/-! ### List-level facts about `pyStrip` and `pyLower` -/

lemma dropWhile_append_all {p : Char → Bool} {l1 : List Char} (l2 : List Char)
    (h : ∀ x ∈ l1, p x = true) :
    (l1 ++ l2).dropWhile p = l2.dropWhile p := by
  induction l1 with
  | nil => rfl
  | cons a l ih =>
    simp only [List.cons_append, List.dropWhile_cons, h a (List.mem_cons_self a l), if_pos]
    exact ih fun x hx => h x (List.mem_cons_of_mem a hx)

lemma dropWhile_append_ne_nil {p : Char → Bool} {l1 : List Char} (l2 : List Char)
    (h : l1.dropWhile p ≠ []) :
    (l1 ++ l2).dropWhile p = l1.dropWhile p ++ l2 := by
  induction l1 with
  | nil => exact absurd rfl h
  | cons a l ih =>
    by_cases hp : p a = true
    · simp only [List.cons_append, List.dropWhile_cons, hp, if_true] at h ⊢
      exact ih h
    · simp only [List.cons_append, List.dropWhile_cons, hp]
      simp [hp]

lemma dropWhile_ne_nil_of_mem {p : Char → Bool} {l : List Char} {x : Char}
    (hx : x ∈ l) (hp : p x = false) : l.dropWhile p ≠ [] := by
  intro h
  rw [List.dropWhile_eq_nil_iff] at h
  rw [h x hx] at hp
  exact absurd hp (by decide)

lemma pyStrip_prepend_ws (ws l : List Char) (h : ∀ x ∈ ws, pyIsSpace x = true) :
    pyStrip (ws ++ l) = pyStrip l := by
  unfold pyStrip
  rw [dropWhile_append_all l h]

lemma pyStrip_append_ws (l ws : List Char) (h : ∀ x ∈ ws, pyIsSpace x = true)
    {x : Char} (hx : x ∈ l) (hp : pyIsSpace x = false) :
    pyStrip (l ++ ws) = pyStrip l := by
  unfold pyStrip
  rw [dropWhile_append_ne_nil ws (dropWhile_ne_nil_of_mem hx hp)]
  rw [List.reverse_append]
  rw [dropWhile_append_all _ (by intro y hy; exact h y (List.mem_reverse.mp hy))]

lemma dropWhile_pyLower (l : List Char) :
    (pyLower l).dropWhile pyIsSpace = pyLower (l.dropWhile pyIsSpace) := by
  induction l with
  | nil => rfl
  | cons a l ih =>
    simp only [pyLower, List.map_cons, List.dropWhile_cons, pyIsSpace_toLower]
    by_cases hp : pyIsSpace a = true
    · rw [if_pos hp, if_pos hp]; exact ih
    · rw [if_neg hp, if_neg hp]; rfl

lemma pyStrip_pyLower (l : List Char) : pyStrip (pyLower l) = pyLower (pyStrip l) := by
  unfold pyStrip
  rw [dropWhile_pyLower]
  rw [show (pyLower (l.dropWhile pyIsSpace)).reverse = pyLower (l.dropWhile pyIsSpace).reverse from
    (List.map_reverse Char.toLower _).symm]
  rw [dropWhile_pyLower]
  exact (List.map_reverse Char.toLower _).symm

lemma pyLower_pyLower (l : List Char) : pyLower (pyLower l) = pyLower l := by
  unfold pyLower
  rw [List.map_map]
  exact List.map_congr_left fun x _ => toLower_toLower x

/-! ### Association-list lemmas for the cache containers -/

lemma lookupKey_none_iff {k : String} {l : List (String × CacheEntry)} :
    lookupKey k l = none ↔ k ∉ l.map Prod.fst := by
  induction l with
  | nil => simp [lookupKey]
  | cons p ps ih =>
    by_cases h : p.1 = k
    · simp [lookupKey, h]
    · simp [lookupKey, h, ih, show k ≠ p.1 from fun hk => h hk.symm]

lemma lookupKey_some_mem {k : String} {l : List (String × CacheEntry)} {e : CacheEntry}
    (h : lookupKey k l = some e) : k ∈ l.map Prod.fst := by
  by_contra hmem
  rw [← lookupKey_none_iff] at hmem
  rw [h] at hmem
  exact Option.noConfusion hmem

lemma map_fst_updateEntry (k : String) (now : Nat) (l : List (String × CacheEntry)) :
    (updateEntry k now l).map Prod.fst = l.map Prod.fst := by
  induction l with
  | nil => rfl
  | cons p ps ih =>
    unfold updateEntry
    by_cases h : p.1 = k
    · rw [if_pos h]; simp
    · rw [if_neg h]; simp [ih]

lemma length_updateEntry (k : String) (now : Nat) (l : List (String × CacheEntry)) :
    (updateEntry k now l).length = l.length := by
  induction l with
  | nil => rfl
  | cons p ps ih =>
    unfold updateEntry
    by_cases h : p.1 = k
    · rw [if_pos h]; simp
    · rw [if_neg h]; simp [ih]

lemma map_fst_eraseKey (k : String) (l : List (String × CacheEntry)) :
    (eraseKey k l).map Prod.fst = removeAll k (l.map Prod.fst) := by
  induction l with
  | nil => rfl
  | cons p ps ih =>
    show (if p.1 = k then eraseKey k ps else p :: eraseKey k ps).map Prod.fst =
      if p.1 = k then removeAll k (ps.map Prod.fst) else p.1 :: removeAll k (ps.map Prod.fst)
    by_cases h : p.1 = k
    · rw [if_pos h, if_pos h]; exact ih
    · rw [if_neg h, if_neg h]; simp [ih]

lemma mem_removeAll {x k : String} {l : List String} :
    x ∈ removeAll k l ↔ x ∈ l ∧ x ≠ k := by
  induction l with
  | nil => simp [removeAll]
  | cons a as ih =>
    unfold removeAll
    by_cases h : a = k
    · rw [if_pos h]
      subst h
      rw [ih]
      constructor
      · rintro ⟨hx, hxk⟩; exact ⟨List.mem_cons_of_mem a hx, hxk⟩
      · rintro ⟨hx, hxk⟩
        rcases List.mem_cons.mp hx with h1 | h1
        · exact absurd h1 hxk
        · exact ⟨h1, hxk⟩
    · rw [if_neg h]
      constructor
      · intro hx
        rcases List.mem_cons.mp hx with h1 | h1
        · subst h1; exact ⟨List.mem_cons_self x as, fun hk => h hk⟩
        · rcases ih.mp h1 with ⟨h2, h3⟩
          exact ⟨List.mem_cons_of_mem a h2, h3⟩
      · rintro ⟨hx, hxk⟩
        rcases List.mem_cons.mp hx with h1 | h1
        · subst h1; exact List.mem_cons_self x _
        · exact List.mem_cons_of_mem a (ih.mpr ⟨h1, hxk⟩)

lemma length_eraseKey_le (k : String) (l : List (String × CacheEntry)) :
    (eraseKey k l).length ≤ l.length := by
  induction l with
  | nil => simp [eraseKey]
  | cons p ps ih =>
    unfold eraseKey
    by_cases h : p.1 = k
    · rw [if_pos h]; simp; omega
    · rw [if_neg h]; simp; omega

lemma length_eraseKey_lt {k : String} {l : List (String × CacheEntry)}
    (h : k ∈ l.map Prod.fst) : (eraseKey k l).length < l.length := by
  induction l with
  | nil => simp at h
  | cons p ps ih =>
    unfold eraseKey
    by_cases hp : p.1 = k
    · rw [if_pos hp]
      have := length_eraseKey_le k ps
      simp
      omega
    · rw [if_neg hp]
      simp only [List.map_cons, List.mem_cons] at h
      rcases h with h1 | h1
      · exact absurd h1.symm hp
      · have := ih h1
        simp
        omega

lemma lookupKey_eraseKey_self (k : String) (l : List (String × CacheEntry)) :
    lookupKey k (eraseKey k l) = none := by
  rw [lookupKey_none_iff, map_fst_eraseKey]
  intro hmem
  exact (mem_removeAll.mp hmem).2 rfl

lemma lookupKey_updateEntry_self (k : String) (now : Nat) (l : List (String × CacheEntry)) :
    lookupKey k (updateEntry k now l) = Option.map (touchEntry now) (lookupKey k l) := by
  induction l with
  | nil => rfl
  | cons p ps ih =>
    show lookupKey k (if p.1 = k then (p.1, touchEntry now p.2) :: ps else p :: updateEntry k now ps) =
      Option.map (touchEntry now) (if p.1 = k then some p.2 else lookupKey k ps)
    by_cases h : p.1 = k
    · rw [if_pos h, if_pos h]
      show (if p.1 = k then some (touchEntry now p.2) else lookupKey k ps) = some (touchEntry now p.2)
      rw [if_pos h]
    · rw [if_neg h, if_neg h]
      show (if p.1 = k then some p.2 else lookupKey k (updateEntry k now ps)) =
        Option.map (touchEntry now) (lookupKey k ps)
      rw [if_neg h]
      exact ih

/-! ### The reachable-state invariant behind the capacity bound -/

lemma minByAccess_spec (x : String × CacheEntry) (l : List (String × CacheEntry)) :
    (minByAccess x l = x ∨ minByAccess x l ∈ l) ∧
    (minByAccess x l).2.access_count ≤ x.2.access_count ∧
    ∀ y ∈ l, (minByAccess x l).2.access_count ≤ y.2.access_count := by
  induction l generalizing x with
  | nil => simp [minByAccess]
  | cons a as ih =>
    have step : minByAccess x (a :: as) =
        minByAccess (if a.2.access_count < x.2.access_count then a else x) as := rfl
    by_cases h : a.2.access_count < x.2.access_count
    · rw [step, if_pos h]
      rcases ih a with ⟨hmem, hle, hall⟩
      refine ⟨?_, ?_, ?_⟩
      · rcases hmem with h1 | h1
        · exact Or.inr (by rw [h1]; exact List.mem_cons_self a as)
        · exact Or.inr (List.mem_cons_of_mem a h1)
      · omega
      · intro y hy
        rcases List.mem_cons.mp hy with h1 | h1
        · subst h1; exact hle
        · exact hall y h1
    · rw [step, if_neg h]
      rcases ih x with ⟨hmem, hle, hall⟩
      refine ⟨?_, hle, ?_⟩
      · rcases hmem with h1 | h1
        · exact Or.inl h1
        · exact Or.inr (List.mem_cons_of_mem a h1)
      · intro y hy
        rcases List.mem_cons.mp hy with h1 | h1
        · subst h1; omega
        · exact hall y h1

lemma evictVictim_some (s : CacheSystem) (hsync : KeysSync s) (hpol : validPolicy s.policy)
    (hne : s.cache ≠ []) :
    ∃ k, s.evictVictim = some k ∧ k ∈ s.cache.map Prod.fst := by
  obtain ⟨x, xs, hx⟩ := List.exists_cons_of_ne_nil hne
  have hx1 : x.1 ∈ s.cache.map Prod.fst := by rw [hx]; simp
  have horder : x.1 ∈ s.access_order := (hsync x.1).mpr hx1
  have hhead : ∃ k, s.access_order.head? = some k ∧ k ∈ s.access_order := by
    cases ho : s.access_order with
    | nil => rw [ho] at horder; simp at horder
    | cons a as => exact ⟨a, rfl, List.mem_cons_self a as⟩
  rcases hpol with h | h | h
  · obtain ⟨k, hk, hmem⟩ := hhead
    refine ⟨k, ?_, (hsync k).mp hmem⟩
    unfold CacheSystem.evictVictim
    rw [hx, h, hk]
    rfl
  · have hmin := minByAccess_spec x xs
    refine ⟨(minByAccess x xs).1, ?_, ?_⟩
    · unfold CacheSystem.evictVictim
      rw [hx, h]
      rfl
    · rcases hmin.1 with h1 | h1
      · rw [hx, h1]; simp
      · rw [hx]
        simp only [List.map_cons, List.mem_cons]
        exact Or.inr (List.mem_map_of_mem Prod.fst h1)
  · obtain ⟨k, hk, hmem⟩ := hhead
    refine ⟨k, ?_, (hsync k).mp hmem⟩
    unfold CacheSystem.evictVictim
    rw [hx, h, hk]
    rfl

lemma evict_spec (s : CacheSystem) (st : Stats)
    (hsync : KeysSync s) (hne : KeysNonempty s)
    (hpol : validPolicy s.policy) (hcache : s.cache ≠ []) :
    (s._evict st).1.cache.length < s.cache.length ∧
    KeysSync (s._evict st).1 ∧ KeysNonempty (s._evict st).1 ∧
    (s._evict st).1.policy = s.policy ∧ (s._evict st).1.max_size = s.max_size := by
  obtain ⟨k, hk, hmem⟩ := evictVictim_some s hsync hpol hcache
  have hkne : k ≠ "" := hne k hmem
  unfold CacheSystem._evict
  rw [hk]
  dsimp only
  rw [if_neg hkne]
  refine ⟨length_eraseKey_lt hmem, ?_, ?_, rfl, rfl⟩
  · intro x
    show x ∈ removeAll k s.access_order ↔ x ∈ (eraseKey k s.cache).map Prod.fst
    rw [map_fst_eraseKey, mem_removeAll, mem_removeAll, hsync x]
  · intro x hx
    show x ≠ ""
    rw [map_fst_eraseKey, mem_removeAll] at hx
    exact hne x hx.1

lemma put_preserves (s : CacheSystem) (st : Stats) (now : Nat) (k v o : String)
    (hinv : CacheInv s) (hpol : validPolicy s.policy) (hmax : 0 < s.max_size) (hk : k ≠ "") :
    CacheInv (s.put st now k v o).1 ∧
    (s.put st now k v o).1.policy = s.policy ∧
    (s.put st now k v o).1.max_size = s.max_size := by
  rcases hinv with ⟨hsync, hne, hlen⟩
  unfold CacheSystem.put
  cases hl : lookupKey k s.cache with
  | some e =>
    dsimp only
    refine ⟨⟨?_, ?_, ?_⟩, rfl, rfl⟩
    · intro x
      show x ∈ s.access_order ↔ x ∈ (updateEntry k now s.cache).map Prod.fst
      rw [map_fst_updateEntry]
      exact hsync x
    · intro x hx
      show x ≠ ""
      rw [map_fst_updateEntry] at hx
      exact hne x hx
    · show (updateEntry k now s.cache).length ≤ s.max_size
      rw [length_updateEntry]
      exact hlen
  | none =>
    dsimp only
    by_cases hfull : s.cache.length ≥ s.max_size
    · rw [if_pos hfull]
      have hcne : s.cache ≠ [] := by
        intro h0
        rw [h0] at hfull
        simp at hfull
        omega
      obtain ⟨hlt, hsync2, hne2, hpol2, hmax2⟩ := evict_spec s st hsync hne hpol hcne
      refine ⟨⟨?_, ?_, ?_⟩, hpol2, hmax2⟩
      · intro x
        show x ∈ (s._evict st).1.access_order ++ [k] ↔ _
        rw [List.mem_append, List.map_append, List.mem_append, hsync2 x]
        simp
      · intro x hx
        show x ≠ ""
        rw [List.map_append, List.mem_append] at hx
        rcases hx with hx | hx
        · exact hne2 x hx
        · simp at hx
          rw [hx]
          exact hk
      · show ((s._evict st).1.cache ++ _).length ≤ (s._evict st).1.max_size
        rw [List.length_append, hmax2]
        simp only [List.length_singleton]
        omega
    · rw [if_neg hfull]
      refine ⟨⟨?_, ?_, ?_⟩, rfl, rfl⟩
      · intro x
        show x ∈ s.access_order ++ [k] ↔ _
        rw [List.mem_append, List.map_append, List.mem_append, hsync x]
        simp
      · intro x hx
        show x ≠ ""
        rw [List.map_append, List.mem_append] at hx
        rcases hx with hx | hx
        · exact hne x hx
        · simp at hx
          rw [hx]
          exact hk
      · show (s.cache ++ _).length ≤ s.max_size
        rw [List.length_append]
        simp only [List.length_singleton]
        omega

lemma get_preserves (s : CacheSystem) (now : Nat) (k : String) (hinv : CacheInv s) :
    CacheInv (s.get now k).1 ∧ (s.get now k).1.policy = s.policy ∧
    (s.get now k).1.max_size = s.max_size := by
  rcases hinv with ⟨hsync, hne, hlen⟩
  unfold CacheSystem.get
  cases hl : lookupKey k s.cache with
  | none =>
    dsimp only
    exact ⟨⟨hsync, hne, hlen⟩, rfl, rfl⟩
  | some e =>
    dsimp only
    by_cases hexp : s._is_expired now e = true
    · rw [if_pos hexp]
      refine ⟨⟨?_, ?_, ?_⟩, rfl, rfl⟩
      · intro x
        show x ∈ removeAll k s.access_order ↔ x ∈ (eraseKey k s.cache).map Prod.fst
        rw [map_fst_eraseKey, mem_removeAll, mem_removeAll, hsync x]
      · intro x hx
        show x ≠ ""
        rw [map_fst_eraseKey, mem_removeAll] at hx
        exact hne x hx.1
      · show (eraseKey k s.cache).length ≤ s.max_size
        exact le_trans (length_eraseKey_le k s.cache) hlen
    · rw [if_neg hexp]
      have hkmem : k ∈ s.cache.map Prod.fst := lookupKey_some_mem hl
      by_cases hlru : s.policy = "LRU"
      · rw [if_pos hlru]
        refine ⟨⟨?_, ?_, ?_⟩, rfl, rfl⟩
        · intro x
          show x ∈ removeAll k s.access_order ++ [k] ↔
            x ∈ (updateEntry k now s.cache).map Prod.fst
          rw [map_fst_updateEntry, List.mem_append, mem_removeAll]
          constructor
          · rintro (⟨h1, _⟩ | h1)
            · exact (hsync x).mp h1
            · simp at h1
              rw [h1]
              exact hkmem
          · intro h1
            by_cases hxk : x = k
            · right; simp [hxk]
            · exact Or.inl ⟨(hsync x).mpr h1, hxk⟩
        · intro x hx
          show x ≠ ""
          rw [map_fst_updateEntry] at hx
          exact hne x hx
        · show (updateEntry k now s.cache).length ≤ s.max_size
          rw [length_updateEntry]
          exact hlen
      · rw [if_neg hlru]
        refine ⟨⟨?_, ?_, ?_⟩, rfl, rfl⟩
        · intro x
          show x ∈ s.access_order ↔ x ∈ (updateEntry k now s.cache).map Prod.fst
          rw [map_fst_updateEntry]
          exact hsync x
        · intro x hx
          show x ≠ ""
          rw [map_fst_updateEntry] at hx
          exact hne x hx
        · show (updateEntry k now s.cache).length ≤ s.max_size
          rw [length_updateEntry]
          exact hlen

lemma run_preserves (ops : List CacheOp) (s : CacheSystem) (st : Stats)
    (hinv : CacheInv s) (hpol : validPolicy s.policy) (hmax : 0 < s.max_size)
    (hkeys : ∀ op ∈ ops, op.keyOk) :
    CacheInv (s.run st ops).1 ∧ (s.run st ops).1.policy = s.policy ∧
    (s.run st ops).1.max_size = s.max_size := by
  induction ops generalizing s st with
  | nil => exact ⟨hinv, rfl, rfl⟩
  | cons op ops ih =>
    cases op with
    | putOp now k v o =>
      have hk : k ≠ "" := hkeys _ (List.mem_cons_self _ _)
      obtain ⟨hinv2, hpol2, hmax2⟩ := put_preserves s st now k v o hinv hpol hmax hk
      have h3 := ih (s.put st now k v o).1 (s.put st now k v o).2 hinv2
        (by rw [hpol2]; exact hpol) (by rw [hmax2]; exact hmax)
        (fun op hop => hkeys op (List.mem_cons_of_mem _ hop))
      exact ⟨h3.1, h3.2.1.trans hpol2, h3.2.2.trans hmax2⟩
    | getOp now k =>
      obtain ⟨hinv2, hpol2, hmax2⟩ := get_preserves s now k hinv
      have h3 := ih (s.get now k).1 st hinv2
        (by rw [hpol2]; exact hpol) (by rw [hmax2]; exact hmax)
        (fun op hop => hkeys op (List.mem_cons_of_mem _ hop))
      exact ⟨h3.1, h3.2.1.trans hpol2, h3.2.2.trans hmax2⟩

/-- Claim C1: for every cache constructed with a valid policy (LRU, LFU or
FIFO, case-insensitively) and a positive capacity, after any sequence of
public operations starting from the empty cache — in particular after each
`put` — `size()` is at most the configured capacity.  Fingerprints written by
`put` are md5 hexdigests and hence nonempty strings. -/
theorem put_sequences_respect_capacity (cap ttlv : Nat) (pol : String) (ops : List CacheOp)
    (hpol : validPolicy (pyUpper pol)) (hcap : 0 < cap)
    (hkeys : ∀ op ∈ ops, op.keyOk) :
    ((CacheSystem.init cap pol ttlv).run Stats.zero ops).1.size ≤ cap := by
  have hinv : CacheInv (CacheSystem.init cap pol ttlv) := by
    refine ⟨?_, ?_, ?_⟩
    · intro k
      simp [CacheSystem.init]
    · intro k hk
      simp [CacheSystem.init] at hk
    · simp [CacheSystem.init]
  obtain ⟨⟨_, _, hlen⟩, _, hmax⟩ :=
    run_preserves ops (CacheSystem.init cap pol ttlv) Stats.zero hinv hpol hcap hkeys
  unfold CacheSystem.size
  rw [show (CacheSystem.init cap pol ttlv).max_size = cap from rfl] at hmax
  omega

theorem put_sequences_respect_capacity_witness :
    ((CacheSystem.init 1 "lru" 10).run Stats.zero
      [CacheOp.putOp 0 "a" "va" "oa", CacheOp.putOp 1 "b" "vb" "ob"]).1.size ≤ 1 :=
  put_sequences_respect_capacity 1 10 "lru"
    [CacheOp.putOp 0 "a" "va" "oa", CacheOp.putOp 1 "b" "vb" "ob"]
    (by decide) (by decide) (by decide)

/-! ### Statistics accounting -/

lemma evict_stats (s : CacheSystem) (st : Stats) :
    (s._evict st).2.hits = st.hits ∧ (s._evict st).2.misses = st.misses ∧
    (s._evict st).2.total_queries = st.total_queries := by
  unfold CacheSystem._evict
  cases s.evictVictim with
  | none => exact ⟨rfl, rfl, rfl⟩
  | some k =>
    dsimp only
    by_cases h : k = ""
    · rw [if_pos h]; exact ⟨rfl, rfl, rfl⟩
    · rw [if_neg h]; exact ⟨rfl, rfl, rfl⟩

lemma put_stats (s : CacheSystem) (st : Stats) (now : Nat) (k v o : String) :
    (s.put st now k v o).2.hits = st.hits ∧ (s.put st now k v o).2.misses = st.misses ∧
    (s.put st now k v o).2.total_queries = st.total_queries := by
  unfold CacheSystem.put
  cases hl : lookupKey k s.cache with
  | some e => exact ⟨rfl, rfl, rfl⟩
  | none =>
    dsimp only
    by_cases hfull : s.cache.length ≥ s.max_size
    · rw [if_pos hfull]
      exact evict_stats s st
    · rw [if_neg hfull]
      exact ⟨rfl, rfl, rfl⟩

lemma process_query_stats (s : CacheSystem) (st : Stats) (now : Nat) (key : String)
    (ext : Option (String × String)) (h : st.hits + st.misses = st.total_queries) :
    (process_query s st now key ext).2.hits + (process_query s st now key ext).2.misses =
    (process_query s st now key ext).2.total_queries := by
  unfold process_query
  cases hr : (s.get now key).2 with
  | some r =>
    simp only [hr]
    omega
  | none =>
    simp only [hr]
    cases ext with
    | none =>
      dsimp only
      omega
    | some pr =>
      dsimp only
      obtain ⟨h1, h2, h3⟩ := put_stats (s.get now key).1
        { st with total_queries := st.total_queries + 1,
                  misses := st.misses + 1 } now key pr.1 pr.2
      rw [h1, h2, h3]
      dsimp only
      omega

/-- Claim C9: starting from zeroed counters, after any sequence of processed
queries `hits + misses = total_queries`: each query increments
`total_queries` exactly once and then exactly one of `hits` or `misses`,
and every later failure of the LLM or score call happens after the miss was
already counted. -/
theorem hits_plus_misses_eq_total (evs : List (Nat × String × Option (String × String)))
    (s0 : CacheSystem) :
    (runQueries s0 Stats.zero evs).2.hits + (runQueries s0 Stats.zero evs).2.misses =
    (runQueries s0 Stats.zero evs).2.total_queries := by
  have gen : ∀ (l : List (Nat × String × Option (String × String))) (s : CacheSystem)
      (st : Stats), st.hits + st.misses = st.total_queries →
      (runQueries s st l).2.hits + (runQueries s st l).2.misses =
      (runQueries s st l).2.total_queries := by
    intro l
    induction l with
    | nil => intro s st h; exact h
    | cons e es ih =>
      intro s st h
      exact ih _ _ (process_query_stats s st e.1 e.2.1 e.2.2 h)
  exact gen evs s0 Stats.zero rfl

/-- Claim C3: when the derived key is already present, `put` increments the
entry's access count and refreshes its last-access time, and leaves the
stored answer and reference unchanged (the first computed answer is never
replaced); the statistics are untouched. -/
theorem duplicate_put_preserves_answer (s : CacheSystem) (st : Stats) (now : Nat)
    (key v o : String) (e : CacheEntry) (h : lookupKey key s.cache = some e) :
    (s.put st now key v o).2 = st ∧
    lookupKey key (s.put st now key v o).1.cache =
      some { key := e.key, value := e.value, original_answer := e.original_answer,
             timestamp := e.timestamp, access_count := e.access_count + 1,
             last_access := now } := by
  unfold CacheSystem.put
  rw [h]
  dsimp only
  refine ⟨rfl, ?_⟩
  show lookupKey key (updateEntry key now s.cache) = _
  rw [lookupKey_updateEntry_self, h]
  rfl

theorem duplicate_put_preserves_answer_witness :
    (CacheSystem.put ⟨2, "LRU", 10, [("k", ⟨"k", "v", "o", 0, 1, 0⟩)], ["k"]⟩
      Stats.zero 5 "k" "v2" "o2").2 = Stats.zero ∧
    lookupKey "k" (CacheSystem.put ⟨2, "LRU", 10, [("k", ⟨"k", "v", "o", 0, 1, 0⟩)], ["k"]⟩
      Stats.zero 5 "k" "v2" "o2").1.cache =
      some { key := "k", value := "v", original_answer := "o",
             timestamp := 0, access_count := 1 + 1, last_access := 5 } :=
  duplicate_put_preserves_answer ⟨2, "LRU", 10, [("k", ⟨"k", "v", "o", 0, 1, 0⟩)], ["k"]⟩
    Stats.zero 5 "k" "v2" "o2" ⟨"k", "v", "o", 0, 1, 0⟩ (by decide)

/-- Claim C10: when the derived key is already present, `put` leaves the
entry's creation timestamp unchanged and leaves `access_order` (and the key
order of the cache itself) unchanged, so a duplicate `put` neither extends
the TTL nor protects the entry from LRU/FIFO eviction the way an LRU `get`
does. -/
theorem duplicate_put_preserves_timestamp_and_order (s : CacheSystem) (st : Stats)
    (now : Nat) (key v o : String) (e : CacheEntry)
    (h : lookupKey key s.cache = some e) :
    (s.put st now key v o).1.access_order = s.access_order ∧
    (s.put st now key v o).1.cache.map Prod.fst = s.cache.map Prod.fst ∧
    ∃ e2, lookupKey key (s.put st now key v o).1.cache = some e2 ∧
      e2.timestamp = e.timestamp := by
  unfold CacheSystem.put
  rw [h]
  dsimp only
  refine ⟨rfl, ?_, ?_⟩
  · show (updateEntry key now s.cache).map Prod.fst = s.cache.map Prod.fst
    exact map_fst_updateEntry key now s.cache
  · refine ⟨touchEntry now e, ?_, rfl⟩
    show lookupKey key (updateEntry key now s.cache) = some (touchEntry now e)
    rw [lookupKey_updateEntry_self, h]
    rfl

theorem duplicate_put_preserves_timestamp_and_order_witness :
    (CacheSystem.put ⟨2, "LRU", 10, [("k", ⟨"k", "v", "o", 3, 1, 3⟩)], ["k"]⟩
      Stats.zero 5 "k" "v2" "o2").1.access_order = ["k"] ∧
    (CacheSystem.put ⟨2, "LRU", 10, [("k", ⟨"k", "v", "o", 3, 1, 3⟩)], ["k"]⟩
      Stats.zero 5 "k" "v2" "o2").1.cache.map Prod.fst = ["k"] ∧
    ∃ e2, lookupKey "k" (CacheSystem.put ⟨2, "LRU", 10, [("k", ⟨"k", "v", "o", 3, 1, 3⟩)], ["k"]⟩
      Stats.zero 5 "k" "v2" "o2").1.cache = some e2 ∧ e2.timestamp = 3 :=
  duplicate_put_preserves_timestamp_and_order
    ⟨2, "LRU", 10, [("k", ⟨"k", "v", "o", 3, 1, 3⟩)], ["k"]⟩
    Stats.zero 5 "k" "v2" "o2" ⟨"k", "v", "o", 3, 1, 3⟩ (by decide)

/-- Claim C4: a `get` that finds an entry whose age exceeds the ttl — in
particular any entry with `ttl = 0` once the clock has advanced past its
creation — returns a miss and removes the entry from both the cache and
`access_order` as a side effect of that read. -/
theorem expired_get_misses_and_removes (s : CacheSystem) (now : Nat) (key : String)
    (e : CacheEntry) (h : lookupKey key s.cache = some e)
    (hexp : now - e.timestamp > s.ttl ∨ (s.ttl = 0 ∧ e.timestamp < now)) :
    (s.get now key).2 = none ∧
    lookupKey key (s.get now key).1.cache = none ∧
    key ∉ (s.get now key).1.access_order := by
  have hexp2 : s._is_expired now e = true := by
    unfold CacheSystem._is_expired
    simp only [decide_eq_true_eq, gt_iff_lt]
    rcases hexp with h1 | ⟨h1, h2⟩
    · exact h1
    · omega
  unfold CacheSystem.get
  rw [h]
  dsimp only
  rw [if_pos hexp2]
  refine ⟨rfl, lookupKey_eraseKey_self key s.cache, ?_⟩
  intro hmem
  exact (mem_removeAll.mp hmem).2 rfl

theorem expired_get_misses_and_removes_witness :
    (CacheSystem.get ⟨2, "LRU", 0, [("k", ⟨"k", "v", "o", 0, 1, 0⟩)], ["k"]⟩ 1 "k").2 = none ∧
    lookupKey "k" (CacheSystem.get ⟨2, "LRU", 0, [("k", ⟨"k", "v", "o", 0, 1, 0⟩)], ["k"]⟩
      1 "k").1.cache = none ∧
    "k" ∉ (CacheSystem.get ⟨2, "LRU", 0, [("k", ⟨"k", "v", "o", 0, 1, 0⟩)], ["k"]⟩
      1 "k").1.access_order :=
  expired_get_misses_and_removes ⟨2, "LRU", 0, [("k", ⟨"k", "v", "o", 0, 1, 0⟩)], ["k"]⟩
    1 "k" ⟨"k", "v", "o", 0, 1, 0⟩ (by decide) (Or.inr ⟨rfl, by decide⟩)

/-! ### Step equations for concrete traces -/

lemma run_nil (s : CacheSystem) (st : Stats) : s.run st [] = (s, st) := rfl

lemma run_cons_put (s : CacheSystem) (st : Stats) (now : Nat) (k v o : String)
    (ops : List CacheOp) :
    s.run st (CacheOp.putOp now k v o :: ops) =
      (s.put st now k v o).1.run (s.put st now k v o).2 ops := rfl

lemma run_cons_get (s : CacheSystem) (st : Stats) (now : Nat) (k : String)
    (ops : List CacheOp) :
    s.run st (CacheOp.getOp now k :: ops) = (s.get now k).1.run st ops := rfl

lemma put_new_notfull (s : CacheSystem) (st : Stats) (now : Nat) (k v o : String)
    (hl : lookupKey k s.cache = none) (hlen : ¬ s.cache.length ≥ s.max_size) :
    s.put st now k v o =
      ({ s with cache := s.cache ++ [(k, ⟨k, v, o, now, 1, now⟩)],
                access_order := s.access_order ++ [k] }, st) := by
  unfold CacheSystem.put
  rw [hl]
  dsimp only
  rw [if_neg hlen]

lemma put_new_full (s : CacheSystem) (st : Stats) (now : Nat) (k v o : String)
    (hl : lookupKey k s.cache = none) (hlen : s.cache.length ≥ s.max_size) :
    s.put st now k v o =
      ({ (s._evict st).1 with
          cache := (s._evict st).1.cache ++ [(k, ⟨k, v, o, now, 1, now⟩)],
          access_order := (s._evict st).1.access_order ++ [k] }, (s._evict st).2) := by
  unfold CacheSystem.put
  rw [hl]
  dsimp only
  rw [if_pos hlen]

lemma get_hit (s : CacheSystem) (now : Nat) (k : String) (e : CacheEntry)
    (hl : lookupKey k s.cache = some e) (hexp : s._is_expired now e = false) :
    s.get now k =
      (if s.policy = "LRU" then
        { s with cache := updateEntry k now s.cache,
                 access_order := removeAll k s.access_order ++ [k] }
       else { s with cache := updateEntry k now s.cache },
       some ⟨e.value, e.original_answer, e.access_count + 1, e.timestamp⟩) := by
  unfold CacheSystem.get
  rw [hl]
  dsimp only
  rw [if_neg (by rw [hexp]; exact Bool.false_ne_true)]

/-- Claim C5: under LRU with capacity 2 and no expiry, for any three distinct
nonempty fingerprints the trace put A, put B, get A, put C evicts B and not
A: the read moved A to the back of `access_order`, and the victim is taken
from the front, so the final state holds A and C with order [A, C]. -/
theorem lru_scenario_evicts_b (a b c va vb vc oa ob oc : String) (ttlv : Nat)
    (hab : a ≠ b) (hac : a ≠ c) (hbc : b ≠ c) (hb : b ≠ "") :
    lookupKey b (((CacheSystem.init 2 "LRU" ttlv).run Stats.zero
      [CacheOp.putOp 0 a va oa, CacheOp.putOp 0 b vb ob,
       CacheOp.getOp 0 a, CacheOp.putOp 0 c vc oc]).1).cache = none ∧
    (∃ e, lookupKey a (((CacheSystem.init 2 "LRU" ttlv).run Stats.zero
      [CacheOp.putOp 0 a va oa, CacheOp.putOp 0 b vb ob,
       CacheOp.getOp 0 a, CacheOp.putOp 0 c vc oc]).1).cache = some e) ∧
    (∃ e, lookupKey c (((CacheSystem.init 2 "LRU" ttlv).run Stats.zero
      [CacheOp.putOp 0 a va oa, CacheOp.putOp 0 b vb ob,
       CacheOp.getOp 0 a, CacheOp.putOp 0 c vc oc]).1).cache = some e) ∧
    (((CacheSystem.init 2 "LRU" ttlv).run Stats.zero
      [CacheOp.putOp 0 a va oa, CacheOp.putOp 0 b vb ob,
       CacheOp.getOp 0 a, CacheOp.putOp 0 c vc oc]).1).access_order = [a, c] := by
  have h1 : (CacheSystem.init 2 "LRU" ttlv).put Stats.zero 0 a va oa =
      (⟨2, "LRU", ttlv, [(a, ⟨a, va, oa, 0, 1, 0⟩)], [a]⟩, Stats.zero) := by
    rw [put_new_notfull (CacheSystem.init 2 "LRU" ttlv) Stats.zero 0 a va oa rfl
      (by show ¬ (0 : Nat) ≥ 2; omega)]
    rfl
  have h2 : (⟨2, "LRU", ttlv, [(a, ⟨a, va, oa, 0, 1, 0⟩)], [a]⟩ : CacheSystem).put
      Stats.zero 0 b vb ob =
      (⟨2, "LRU", ttlv, [(a, ⟨a, va, oa, 0, 1, 0⟩), (b, ⟨b, vb, ob, 0, 1, 0⟩)], [a, b]⟩,
       Stats.zero) := by
    rw [put_new_notfull ⟨2, "LRU", ttlv, [(a, ⟨a, va, oa, 0, 1, 0⟩)], [a]⟩
      Stats.zero 0 b vb ob (by simp [lookupKey, hab]) (by show ¬ (1 : Nat) ≥ 2; omega)]
    rfl
  have h3 : (⟨2, "LRU", ttlv, [(a, ⟨a, va, oa, 0, 1, 0⟩), (b, ⟨b, vb, ob, 0, 1, 0⟩)], [a, b]⟩ :
      CacheSystem).get 0 a =
      (⟨2, "LRU", ttlv, [(a, ⟨a, va, oa, 0, 2, 0⟩), (b, ⟨b, vb, ob, 0, 1, 0⟩)], [b, a]⟩,
       some ⟨va, oa, 2, 0⟩) := by
    rw [get_hit ⟨2, "LRU", ttlv, [(a, ⟨a, va, oa, 0, 1, 0⟩), (b, ⟨b, vb, ob, 0, 1, 0⟩)], [a, b]⟩
      0 a ⟨a, va, oa, 0, 1, 0⟩ (by simp [lookupKey]) (by simp [CacheSystem._is_expired])]
    rw [if_pos rfl]
    simp [updateEntry, removeAll, touchEntry, Ne.symm hab]
  have hevict : (⟨2, "LRU", ttlv, [(a, ⟨a, va, oa, 0, 2, 0⟩), (b, ⟨b, vb, ob, 0, 1, 0⟩)],
      [b, a]⟩ : CacheSystem)._evict Stats.zero =
      (⟨2, "LRU", ttlv, [(a, ⟨a, va, oa, 0, 2, 0⟩)], [a]⟩, ⟨0, 0, 0, 1⟩) := by
    unfold CacheSystem._evict
    have hv : (⟨2, "LRU", ttlv, [(a, ⟨a, va, oa, 0, 2, 0⟩), (b, ⟨b, vb, ob, 0, 1, 0⟩)],
        [b, a]⟩ : CacheSystem).evictVictim = some b := rfl
    rw [hv]
    dsimp only
    rw [if_neg hb]
    simp [eraseKey, removeAll, hab, Ne.symm hab, Stats.zero]
  have h4 : (⟨2, "LRU", ttlv, [(a, ⟨a, va, oa, 0, 2, 0⟩), (b, ⟨b, vb, ob, 0, 1, 0⟩)], [b, a]⟩ :
      CacheSystem).put Stats.zero 0 c vc oc =
      (⟨2, "LRU", ttlv, [(a, ⟨a, va, oa, 0, 2, 0⟩), (c, ⟨c, vc, oc, 0, 1, 0⟩)], [a, c]⟩,
       ⟨0, 0, 0, 1⟩) := by
    rw [put_new_full ⟨2, "LRU", ttlv, [(a, ⟨a, va, oa, 0, 2, 0⟩), (b, ⟨b, vb, ob, 0, 1, 0⟩)],
      [b, a]⟩ Stats.zero 0 c vc oc (by simp [lookupKey, hac, hbc])
      (by show (2 : Nat) ≥ 2; omega), hevict]
    rfl
  have hrun : ((CacheSystem.init 2 "LRU" ttlv).run Stats.zero
      [CacheOp.putOp 0 a va oa, CacheOp.putOp 0 b vb ob,
       CacheOp.getOp 0 a, CacheOp.putOp 0 c vc oc]) =
      (⟨2, "LRU", ttlv, [(a, ⟨a, va, oa, 0, 2, 0⟩), (c, ⟨c, vc, oc, 0, 1, 0⟩)], [a, c]⟩,
       ⟨0, 0, 0, 1⟩) := by
    rw [run_cons_put, h1]
    dsimp only
    rw [run_cons_put, h2]
    dsimp only
    rw [run_cons_get, h3]
    dsimp only
    rw [run_cons_put, h4]
    dsimp only
    rw [run_nil]
  rw [hrun]
  dsimp only
  refine ⟨by simp [lookupKey, hab, Ne.symm hbc], ⟨⟨a, va, oa, 0, 2, 0⟩, by simp [lookupKey]⟩,
    ⟨⟨c, vc, oc, 0, 1, 0⟩, by simp [lookupKey, hac]⟩, rfl⟩

theorem lru_scenario_evicts_b_witness :
    lookupKey "b" (((CacheSystem.init 2 "LRU" 100).run Stats.zero
      [CacheOp.putOp 0 "a" "va" "oa", CacheOp.putOp 0 "b" "vb" "ob",
       CacheOp.getOp 0 "a", CacheOp.putOp 0 "c" "vc" "oc"]).1).cache = none ∧
    (∃ e, lookupKey "a" (((CacheSystem.init 2 "LRU" 100).run Stats.zero
      [CacheOp.putOp 0 "a" "va" "oa", CacheOp.putOp 0 "b" "vb" "ob",
       CacheOp.getOp 0 "a", CacheOp.putOp 0 "c" "vc" "oc"]).1).cache = some e) ∧
    (∃ e, lookupKey "c" (((CacheSystem.init 2 "LRU" 100).run Stats.zero
      [CacheOp.putOp 0 "a" "va" "oa", CacheOp.putOp 0 "b" "vb" "ob",
       CacheOp.getOp 0 "a", CacheOp.putOp 0 "c" "vc" "oc"]).1).cache = some e) ∧
    (((CacheSystem.init 2 "LRU" 100).run Stats.zero
      [CacheOp.putOp 0 "a" "va" "oa", CacheOp.putOp 0 "b" "vb" "ob",
       CacheOp.getOp 0 "a", CacheOp.putOp 0 "c" "vc" "oc"]).1).access_order = ["a", "c"] :=
  lru_scenario_evicts_b "a" "b" "c" "va" "vb" "vc" "oa" "ob" "oc" 100
    (by decide) (by decide) (by decide) (by decide)

/-- Claim C6: under FIFO with capacity 2 and no expiry, for any three
distinct nonempty fingerprints the trace put A, put B, get A, put C evicts
A: a successful read never reorders `access_order` under FIFO, so eviction
follows insertion order and the final state holds B and C with order
[B, C]. -/
theorem fifo_scenario_evicts_a (a b c va vb vc oa ob oc : String) (ttlv : Nat)
    (hab : a ≠ b) (hac : a ≠ c) (hbc : b ≠ c) (ha : a ≠ "") :
    lookupKey a (((CacheSystem.init 2 "FIFO" ttlv).run Stats.zero
      [CacheOp.putOp 0 a va oa, CacheOp.putOp 0 b vb ob,
       CacheOp.getOp 0 a, CacheOp.putOp 0 c vc oc]).1).cache = none ∧
    (∃ e, lookupKey b (((CacheSystem.init 2 "FIFO" ttlv).run Stats.zero
      [CacheOp.putOp 0 a va oa, CacheOp.putOp 0 b vb ob,
       CacheOp.getOp 0 a, CacheOp.putOp 0 c vc oc]).1).cache = some e) ∧
    (∃ e, lookupKey c (((CacheSystem.init 2 "FIFO" ttlv).run Stats.zero
      [CacheOp.putOp 0 a va oa, CacheOp.putOp 0 b vb ob,
       CacheOp.getOp 0 a, CacheOp.putOp 0 c vc oc]).1).cache = some e) ∧
    (((CacheSystem.init 2 "FIFO" ttlv).run Stats.zero
      [CacheOp.putOp 0 a va oa, CacheOp.putOp 0 b vb ob,
       CacheOp.getOp 0 a, CacheOp.putOp 0 c vc oc]).1).access_order = [b, c] := by
  have h1 : (CacheSystem.init 2 "FIFO" ttlv).put Stats.zero 0 a va oa =
      (⟨2, "FIFO", ttlv, [(a, ⟨a, va, oa, 0, 1, 0⟩)], [a]⟩, Stats.zero) := by
    rw [put_new_notfull (CacheSystem.init 2 "FIFO" ttlv) Stats.zero 0 a va oa rfl
      (by show ¬ (0 : Nat) ≥ 2; omega)]
    rfl
  have h2 : (⟨2, "FIFO", ttlv, [(a, ⟨a, va, oa, 0, 1, 0⟩)], [a]⟩ : CacheSystem).put
      Stats.zero 0 b vb ob =
      (⟨2, "FIFO", ttlv, [(a, ⟨a, va, oa, 0, 1, 0⟩), (b, ⟨b, vb, ob, 0, 1, 0⟩)], [a, b]⟩,
       Stats.zero) := by
    rw [put_new_notfull ⟨2, "FIFO", ttlv, [(a, ⟨a, va, oa, 0, 1, 0⟩)], [a]⟩
      Stats.zero 0 b vb ob (by simp [lookupKey, hab]) (by show ¬ (1 : Nat) ≥ 2; omega)]
    rfl
  have h3 : (⟨2, "FIFO", ttlv, [(a, ⟨a, va, oa, 0, 1, 0⟩), (b, ⟨b, vb, ob, 0, 1, 0⟩)], [a, b]⟩ :
      CacheSystem).get 0 a =
      (⟨2, "FIFO", ttlv, [(a, ⟨a, va, oa, 0, 2, 0⟩), (b, ⟨b, vb, ob, 0, 1, 0⟩)], [a, b]⟩,
       some ⟨va, oa, 2, 0⟩) := by
    rw [get_hit ⟨2, "FIFO", ttlv, [(a, ⟨a, va, oa, 0, 1, 0⟩), (b, ⟨b, vb, ob, 0, 1, 0⟩)], [a, b]⟩
      0 a ⟨a, va, oa, 0, 1, 0⟩ (by simp [lookupKey]) (by simp [CacheSystem._is_expired])]
    rw [if_neg (by show ¬ ("FIFO" = "LRU"); decide)]
    simp [updateEntry, touchEntry]
  have hevict : (⟨2, "FIFO", ttlv, [(a, ⟨a, va, oa, 0, 2, 0⟩), (b, ⟨b, vb, ob, 0, 1, 0⟩)],
      [a, b]⟩ : CacheSystem)._evict Stats.zero =
      (⟨2, "FIFO", ttlv, [(b, ⟨b, vb, ob, 0, 1, 0⟩)], [b]⟩, ⟨0, 0, 0, 1⟩) := by
    unfold CacheSystem._evict
    have hv : (⟨2, "FIFO", ttlv, [(a, ⟨a, va, oa, 0, 2, 0⟩), (b, ⟨b, vb, ob, 0, 1, 0⟩)],
        [a, b]⟩ : CacheSystem).evictVictim = some a := rfl
    rw [hv]
    dsimp only
    rw [if_neg ha]
    simp [eraseKey, removeAll, Ne.symm hab, Stats.zero]
  have h4 : (⟨2, "FIFO", ttlv, [(a, ⟨a, va, oa, 0, 2, 0⟩), (b, ⟨b, vb, ob, 0, 1, 0⟩)], [a, b]⟩ :
      CacheSystem).put Stats.zero 0 c vc oc =
      (⟨2, "FIFO", ttlv, [(b, ⟨b, vb, ob, 0, 1, 0⟩), (c, ⟨c, vc, oc, 0, 1, 0⟩)], [b, c]⟩,
       ⟨0, 0, 0, 1⟩) := by
    rw [put_new_full ⟨2, "FIFO", ttlv, [(a, ⟨a, va, oa, 0, 2, 0⟩), (b, ⟨b, vb, ob, 0, 1, 0⟩)],
      [a, b]⟩ Stats.zero 0 c vc oc (by simp [lookupKey, hac, hbc])
      (by show (2 : Nat) ≥ 2; omega), hevict]
    rfl
  have hrun : ((CacheSystem.init 2 "FIFO" ttlv).run Stats.zero
      [CacheOp.putOp 0 a va oa, CacheOp.putOp 0 b vb ob,
       CacheOp.getOp 0 a, CacheOp.putOp 0 c vc oc]) =
      (⟨2, "FIFO", ttlv, [(b, ⟨b, vb, ob, 0, 1, 0⟩), (c, ⟨c, vc, oc, 0, 1, 0⟩)], [b, c]⟩,
       ⟨0, 0, 0, 1⟩) := by
    rw [run_cons_put, h1]
    dsimp only
    rw [run_cons_put, h2]
    dsimp only
    rw [run_cons_get, h3]
    dsimp only
    rw [run_cons_put, h4]
    dsimp only
    rw [run_nil]
  rw [hrun]
  dsimp only
  refine ⟨by simp [lookupKey, Ne.symm hab, Ne.symm hac], ⟨⟨b, vb, ob, 0, 1, 0⟩,
    by simp [lookupKey]⟩, ⟨⟨c, vc, oc, 0, 1, 0⟩, by simp [lookupKey, hbc]⟩, rfl⟩

theorem fifo_scenario_evicts_a_witness :
    lookupKey "a" (((CacheSystem.init 2 "FIFO" 100).run Stats.zero
      [CacheOp.putOp 0 "a" "va" "oa", CacheOp.putOp 0 "b" "vb" "ob",
       CacheOp.getOp 0 "a", CacheOp.putOp 0 "c" "vc" "oc"]).1).cache = none ∧
    (∃ e, lookupKey "b" (((CacheSystem.init 2 "FIFO" 100).run Stats.zero
      [CacheOp.putOp 0 "a" "va" "oa", CacheOp.putOp 0 "b" "vb" "ob",
       CacheOp.getOp 0 "a", CacheOp.putOp 0 "c" "vc" "oc"]).1).cache = some e) ∧
    (∃ e, lookupKey "c" (((CacheSystem.init 2 "FIFO" 100).run Stats.zero
      [CacheOp.putOp 0 "a" "va" "oa", CacheOp.putOp 0 "b" "vb" "ob",
       CacheOp.getOp 0 "a", CacheOp.putOp 0 "c" "vc" "oc"]).1).cache = some e) ∧
    (((CacheSystem.init 2 "FIFO" 100).run Stats.zero
      [CacheOp.putOp 0 "a" "va" "oa", CacheOp.putOp 0 "b" "vb" "ob",
       CacheOp.getOp 0 "a", CacheOp.putOp 0 "c" "vc" "oc"]).1).access_order = ["b", "c"] :=
  fifo_scenario_evicts_a "a" "b" "c" "va" "vb" "vc" "oa" "ob" "oc" 100
    (by decide) (by decide) (by decide) (by decide)

/-- Claim C7: under LFU, whenever eviction is invoked on a non-empty cache
the selected and removed victim is an entry whose access count is minimal
over the whole cache; in particular, with capacity 2 the trace put A, put B,
get A, get A, put C evicts B, whose count 1 is below A's count 3. -/
theorem lfu_evicts_minimum_access_count (s : CacheSystem) (st : Stats)
    (hpol : s.policy = "LFU") (hcne : s.cache ≠ [])
    (hnonempty : ∀ k ∈ s.cache.map Prod.fst, k ≠ "")
    (a b c va vb vc oa ob oc : String) (ttlv : Nat)
    (hab : a ≠ b) (hac : a ≠ c) (hbc : b ≠ c) (hb : b ≠ "") :
    (∃ p, p ∈ s.cache ∧ s.evictVictim = some p.1 ∧
      lookupKey p.1 (s._evict st).1.cache = none ∧
      ∀ q ∈ s.cache, p.2.access_count ≤ q.2.access_count) ∧
    (lookupKey b (((CacheSystem.init 2 "LFU" ttlv).run Stats.zero
      [CacheOp.putOp 0 a va oa, CacheOp.putOp 0 b vb ob, CacheOp.getOp 0 a,
       CacheOp.getOp 0 a, CacheOp.putOp 0 c vc oc]).1).cache = none ∧
     (∃ e, lookupKey a (((CacheSystem.init 2 "LFU" ttlv).run Stats.zero
      [CacheOp.putOp 0 a va oa, CacheOp.putOp 0 b vb ob, CacheOp.getOp 0 a,
       CacheOp.getOp 0 a, CacheOp.putOp 0 c vc oc]).1).cache = some e) ∧
     (∃ e, lookupKey c (((CacheSystem.init 2 "LFU" ttlv).run Stats.zero
      [CacheOp.putOp 0 a va oa, CacheOp.putOp 0 b vb ob, CacheOp.getOp 0 a,
       CacheOp.getOp 0 a, CacheOp.putOp 0 c vc oc]).1).cache = some e)) := by
  constructor
  · obtain ⟨x, xs, hx⟩ := List.exists_cons_of_ne_nil hcne
    have hmin := minByAccess_spec x xs
    have hmem : minByAccess x xs ∈ s.cache := by
      rw [hx]
      rcases hmin.1 with h1 | h1
      · rw [h1]; exact List.mem_cons_self x xs
      · exact List.mem_cons_of_mem x h1
    have hv : s.evictVictim = some (minByAccess x xs).1 := by
      unfold CacheSystem.evictVictim
      rw [hx]
      dsimp only
      rw [hpol]
      rw [if_neg (by decide), if_pos (by decide)]
    have hkmem : (minByAccess x xs).1 ∈ s.cache.map Prod.fst :=
      List.mem_map_of_mem Prod.fst hmem
    have hkne : (minByAccess x xs).1 ≠ "" := hnonempty _ hkmem
    refine ⟨minByAccess x xs, hmem, hv, ?_, ?_⟩
    · unfold CacheSystem._evict
      rw [hv]
      dsimp only
      rw [if_neg hkne]
      exact lookupKey_eraseKey_self _ s.cache
    · intro q hq
      rw [hx] at hq
      rcases List.mem_cons.mp hq with h1 | h1
      · rw [h1]; exact hmin.2.1
      · exact hmin.2.2 q h1
  · have h1 : (CacheSystem.init 2 "LFU" ttlv).put Stats.zero 0 a va oa =
        (⟨2, "LFU", ttlv, [(a, ⟨a, va, oa, 0, 1, 0⟩)], [a]⟩, Stats.zero) := by
      rw [put_new_notfull (CacheSystem.init 2 "LFU" ttlv) Stats.zero 0 a va oa rfl
        (by show ¬ (0 : Nat) ≥ 2; omega)]
      rfl
    have h2 : (⟨2, "LFU", ttlv, [(a, ⟨a, va, oa, 0, 1, 0⟩)], [a]⟩ : CacheSystem).put
        Stats.zero 0 b vb ob =
        (⟨2, "LFU", ttlv, [(a, ⟨a, va, oa, 0, 1, 0⟩), (b, ⟨b, vb, ob, 0, 1, 0⟩)], [a, b]⟩,
         Stats.zero) := by
      rw [put_new_notfull ⟨2, "LFU", ttlv, [(a, ⟨a, va, oa, 0, 1, 0⟩)], [a]⟩
        Stats.zero 0 b vb ob (by simp [lookupKey, hab]) (by show ¬ (1 : Nat) ≥ 2; omega)]
      rfl
    have h3 : (⟨2, "LFU", ttlv, [(a, ⟨a, va, oa, 0, 1, 0⟩), (b, ⟨b, vb, ob, 0, 1, 0⟩)],
        [a, b]⟩ : CacheSystem).get 0 a =
        (⟨2, "LFU", ttlv, [(a, ⟨a, va, oa, 0, 2, 0⟩), (b, ⟨b, vb, ob, 0, 1, 0⟩)], [a, b]⟩,
         some ⟨va, oa, 2, 0⟩) := by
      rw [get_hit ⟨2, "LFU", ttlv, [(a, ⟨a, va, oa, 0, 1, 0⟩), (b, ⟨b, vb, ob, 0, 1, 0⟩)],
        [a, b]⟩ 0 a ⟨a, va, oa, 0, 1, 0⟩ (by simp [lookupKey]) (by simp [CacheSystem._is_expired])]
      rw [if_neg (by show ¬ ("LFU" = "LRU"); decide)]
      simp [updateEntry, touchEntry]
    have h3b : (⟨2, "LFU", ttlv, [(a, ⟨a, va, oa, 0, 2, 0⟩), (b, ⟨b, vb, ob, 0, 1, 0⟩)],
        [a, b]⟩ : CacheSystem).get 0 a =
        (⟨2, "LFU", ttlv, [(a, ⟨a, va, oa, 0, 3, 0⟩), (b, ⟨b, vb, ob, 0, 1, 0⟩)], [a, b]⟩,
         some ⟨va, oa, 3, 0⟩) := by
      rw [get_hit ⟨2, "LFU", ttlv, [(a, ⟨a, va, oa, 0, 2, 0⟩), (b, ⟨b, vb, ob, 0, 1, 0⟩)],
        [a, b]⟩ 0 a ⟨a, va, oa, 0, 2, 0⟩ (by simp [lookupKey]) (by simp [CacheSystem._is_expired])]
      rw [if_neg (by show ¬ ("LFU" = "LRU"); decide)]
      simp [updateEntry, touchEntry]
    have hevict : (⟨2, "LFU", ttlv, [(a, ⟨a, va, oa, 0, 3, 0⟩), (b, ⟨b, vb, ob, 0, 1, 0⟩)],
        [a, b]⟩ : CacheSystem)._evict Stats.zero =
        (⟨2, "LFU", ttlv, [(a, ⟨a, va, oa, 0, 3, 0⟩)], [a]⟩, ⟨0, 0, 0, 1⟩) := by
      unfold CacheSystem._evict
      have hv : (⟨2, "LFU", ttlv, [(a, ⟨a, va, oa, 0, 3, 0⟩), (b, ⟨b, vb, ob, 0, 1, 0⟩)],
          [a, b]⟩ : CacheSystem).evictVictim = some b := rfl
      rw [hv]
      dsimp only
      rw [if_neg hb]
      simp [eraseKey, removeAll, hab, Ne.symm hab, Stats.zero]
    have h4 : (⟨2, "LFU", ttlv, [(a, ⟨a, va, oa, 0, 3, 0⟩), (b, ⟨b, vb, ob, 0, 1, 0⟩)],
        [a, b]⟩ : CacheSystem).put Stats.zero 0 c vc oc =
        (⟨2, "LFU", ttlv, [(a, ⟨a, va, oa, 0, 3, 0⟩), (c, ⟨c, vc, oc, 0, 1, 0⟩)], [a, c]⟩,
         ⟨0, 0, 0, 1⟩) := by
      rw [put_new_full ⟨2, "LFU", ttlv, [(a, ⟨a, va, oa, 0, 3, 0⟩), (b, ⟨b, vb, ob, 0, 1, 0⟩)],
        [a, b]⟩ Stats.zero 0 c vc oc (by simp [lookupKey, hac, hbc])
        (by show (2 : Nat) ≥ 2; omega), hevict]
      rfl
    have hrun : ((CacheSystem.init 2 "LFU" ttlv).run Stats.zero
        [CacheOp.putOp 0 a va oa, CacheOp.putOp 0 b vb ob, CacheOp.getOp 0 a,
         CacheOp.getOp 0 a, CacheOp.putOp 0 c vc oc]) =
        (⟨2, "LFU", ttlv, [(a, ⟨a, va, oa, 0, 3, 0⟩), (c, ⟨c, vc, oc, 0, 1, 0⟩)], [a, c]⟩,
         ⟨0, 0, 0, 1⟩) := by
      rw [run_cons_put, h1]
      dsimp only
      rw [run_cons_put, h2]
      dsimp only
      rw [run_cons_get, h3]
      dsimp only
      rw [run_cons_get, h3b]
      dsimp only
      rw [run_cons_put, h4]
      dsimp only
      rw [run_nil]
    rw [hrun]
    dsimp only
    refine ⟨by simp [lookupKey, hab, Ne.symm hbc], ⟨⟨a, va, oa, 0, 3, 0⟩, by simp [lookupKey]⟩,
      ⟨⟨c, vc, oc, 0, 1, 0⟩, by simp [lookupKey, hac]⟩⟩

theorem lfu_evicts_minimum_access_count_witness :
    (∃ p, p ∈ ([("k", (⟨"k", "v", "o", 0, 1, 0⟩ : CacheEntry))] :
        List (String × CacheEntry)) ∧
      (⟨2, "LFU", 9, [("k", ⟨"k", "v", "o", 0, 1, 0⟩)], ["k"]⟩ :
        CacheSystem).evictVictim = some p.1 ∧
      lookupKey p.1 ((⟨2, "LFU", 9, [("k", ⟨"k", "v", "o", 0, 1, 0⟩)], ["k"]⟩ :
        CacheSystem)._evict Stats.zero).1.cache = none ∧
      ∀ q ∈ ([("k", (⟨"k", "v", "o", 0, 1, 0⟩ : CacheEntry))] :
        List (String × CacheEntry)), p.2.access_count ≤ q.2.access_count) ∧
    (lookupKey "b" (((CacheSystem.init 2 "LFU" 100).run Stats.zero
      [CacheOp.putOp 0 "a" "va" "oa", CacheOp.putOp 0 "b" "vb" "ob", CacheOp.getOp 0 "a",
       CacheOp.getOp 0 "a", CacheOp.putOp 0 "c" "vc" "oc"]).1).cache = none ∧
     (∃ e, lookupKey "a" (((CacheSystem.init 2 "LFU" 100).run Stats.zero
      [CacheOp.putOp 0 "a" "va" "oa", CacheOp.putOp 0 "b" "vb" "ob", CacheOp.getOp 0 "a",
       CacheOp.getOp 0 "a", CacheOp.putOp 0 "c" "vc" "oc"]).1).cache = some e) ∧
     (∃ e, lookupKey "c" (((CacheSystem.init 2 "LFU" 100).run Stats.zero
      [CacheOp.putOp 0 "a" "va" "oa", CacheOp.putOp 0 "b" "vb" "ob", CacheOp.getOp 0 "a",
       CacheOp.getOp 0 "a", CacheOp.putOp 0 "c" "vc" "oc"]).1).cache = some e)) :=
  lfu_evicts_minimum_access_count
    ⟨2, "LFU", 9, [("k", ⟨"k", "v", "o", 0, 1, 0⟩)], ["k"]⟩ Stats.zero rfl
    (by decide) (by decide) "a" "b" "c" "va" "vb" "vc" "oa" "ob" "oc" 100
    (by decide) (by decide) (by decide) (by decide)

/-- Claim C8 counterexample: constructing the cache with the unrecognized
policy name `"RANDOM"` does not fail — there is no `ConfigurationError`
anywhere in the code — and the resulting cache even exceeds its configured
capacity, because `_evict` never selects a victim for an unknown policy. -/
theorem invalid_policy_construction_succeeds :
    (CacheSystem.init 2 "RANDOM" 100).policy = "RANDOM" ∧
    ((CacheSystem.init 1 "RANDOM" 100).run Stats.zero
      [CacheOp.putOp 0 "a" "v" "o", CacheOp.putOp 1 "b" "v" "o"]).1.size = 2 := by
  decide

/-- Claim C8 amended: construction performs no policy validation and always
succeeds, storing the upper-cased policy string verbatim; for every policy
name outside the closed set LRU/LFU/FIFO, `_evict` removes nothing and
counts nothing. -/
theorem invalid_policy_no_validation_no_eviction (p : String) (cap ttlv : Nat)
    (hp : ¬ validPolicy (pyUpper p)) :
    (CacheSystem.init cap p ttlv).policy = pyUpper p ∧
    ∀ (s : CacheSystem) (st : Stats), s.policy = pyUpper p → s._evict st = (s, st) := by
  refine ⟨rfl, ?_⟩
  intro s st hpol
  unfold CacheSystem._evict
  have hv : s.evictVictim = none := by
    unfold CacheSystem.evictVictim
    cases hc : s.cache with
    | nil => rfl
    | cons x xs =>
      dsimp only
      rw [hpol]
      rw [if_neg (fun h => hp (Or.inl h)), if_neg (fun h => hp (Or.inr (Or.inl h))),
          if_neg (fun h => hp (Or.inr (Or.inr h)))]
  rw [hv]

theorem invalid_policy_no_validation_no_eviction_witness :
    (CacheSystem.init 1 "RANDOM" 5).policy = "RANDOM" ∧
    (⟨1, "RANDOM", 5, [("k", ⟨"k", "v", "o", 0, 1, 0⟩)], ["k"]⟩ : CacheSystem)._evict
      Stats.zero = (⟨1, "RANDOM", 5, [("k", ⟨"k", "v", "o", 0, 1, 0⟩)], ["k"]⟩, Stats.zero) :=
  ⟨(invalid_policy_no_validation_no_eviction "RANDOM" 1 5 (by decide)).1,
   (invalid_policy_no_validation_no_eviction "RANDOM" 1 5 (by decide)).2
     ⟨1, "RANDOM", 5, [("k", ⟨"k", "v", "o", 0, 1, 0⟩)], ["k"]⟩ Stats.zero rfl⟩

/-- Claim C2 counterexample: key derivation is not whitespace-insensitive in
the claimed sense — `("Foo", "Bar")` and `(" foo ", " bar ")` normalize to
different strings (`"foo|bar"` vs `"foo | bar"`), because `strip()` is
applied to the combined `title|content` string, so the md5 inputs and hence
the fingerprints differ and the two variants do not resolve to the same
entry. -/
theorem generate_key_not_ws_insensitive :
    CacheSystem._generate_key "Foo" "Bar" ≠ CacheSystem._generate_key " foo " " bar " := by
  decide

/-- Claim C2 amended: key derivation is case-insensitive, and
whitespace-insensitive only at the outer edges of the combined
`title|content` string — leading whitespace of the title and trailing
whitespace of the content never change the fingerprint, while whitespace
adjacent to the separator (trailing in the title, leading in the content)
does. -/
theorem generate_key_case_and_outer_ws (t c ws1 ws2 : String)
    (h1 : ∀ ch ∈ ws1.data, pyIsSpace ch = true)
    (h2 : ∀ ch ∈ ws2.data, pyIsSpace ch = true) :
    CacheSystem._generate_key (ws1 ++ t) (c ++ ws2) = CacheSystem._generate_key t c ∧
    CacheSystem._generate_key ⟨pyLower t.data⟩ ⟨pyLower c.data⟩ =
      CacheSystem._generate_key t c := by
  constructor
  · unfold CacheSystem._generate_key
    apply congrArg String.mk
    apply congrArg pyLower
    rw [String.data_append, String.data_append]
    have ha : ws1.data ++ t.data ++ '|' :: (c.data ++ ws2.data) =
        ws1.data ++ ((t.data ++ '|' :: c.data) ++ ws2.data) := by
      simp [List.append_assoc]
    rw [ha, pyStrip_prepend_ws _ _ h1]
    exact pyStrip_append_ws _ _ h2 (x := '|')
      (by simp) (by decide)
  · unfold CacheSystem._generate_key
    apply congrArg String.mk
    have hdata : (String.mk (pyLower t.data)).data = pyLower t.data := rfl
    have hdata2 : (String.mk (pyLower c.data)).data = pyLower c.data := rfl
    rw [hdata, hdata2]
    have hp : pyLower t.data ++ '|' :: pyLower c.data = pyLower (t.data ++ '|' :: c.data) := by
      unfold pyLower
      rw [List.map_append, List.map_cons]
      rfl
    rw [hp, pyStrip_pyLower, pyLower_pyLower]

theorem generate_key_case_and_outer_ws_witness :
    CacheSystem._generate_key (" " ++ "Foo") ("Bar" ++ " ") = CacheSystem._generate_key "Foo" "Bar" ∧
    CacheSystem._generate_key ⟨pyLower "Foo".data⟩ ⟨pyLower "Bar".data⟩ =
      CacheSystem._generate_key "Foo" "Bar" :=
  generate_key_case_and_outer_ws "Foo" "Bar" " " " " (by decide) (by decide)
